import Mathlib

/-!
# Verification of the code-sensei finding-aggregation and scoring pipeline

Shallow embedding of the review-bot's core pipeline, translated from the
TypeScript sources:

* `ReviewService` (dedup / stable severity sort / adjusted score / file cap),
* `ClaudeReviewer` (AI call, response parsing, fallback result),
* `AutoFixService.applyFix` (whitelisted line-local rewrites),
* `updateCheckRun` (check-run conclusion policy),
* `setupAutoMergeHandlers` (auto-merge gating),
* `ComplexityAnalyzer` (lines of code, cyclomatic/cognitive complexity,
  maintainability index over JavaScript number semantics).

Machine numbers are modelled with `Nat`/`Int`; JavaScript floating point
values appearing in the maintainability index are modelled by `JSNum`,
real numbers extended with `NaN` and the two infinities, with the exact
IEEE special-value propagation used by `Math.log`, `Math.max`, `Math.min`,
`+`, `-`, `*`.
-/

namespace CodeSensei

/-- Issue severity (`'critical' | 'high' | 'medium' | 'low' | 'info'`). -/
inductive Severity where
  | critical
  | high
  | medium
  | low
  | info
deriving DecidableEq, Repr

/-- Issue category
(`'security' | 'performance' | 'maintainability' | 'style' | 'bug' | 'best-practice'`). -/
inductive Category where
  | security
  | performance
  | maintainability
  | style
  | bug
  | bestPractice
deriving DecidableEq, Repr

/-- The `ReviewIssue` interface (src/types).  `line`, `endLine`, `column`,
`suggestion` and `code` are optional fields; `line := some 0` models the
falsy JavaScript value `0`. -/
structure ReviewIssue where
  severity : Severity
  category : Category
  message : String
  file : String
  line : Option Nat := none
  endLine : Option Nat := none
  column : Option Nat := none
  suggestion : Option String := none
  autoFixable : Bool := false
  code : Option String := none
deriving DecidableEq, Repr

/-- An `AnalysisResult` as consumed by `mergeAnalysisResults`: the per-file
record a producer pushes (`{ file, language, issues, metrics }`); only the
fields the aggregation reads are carried. -/
structure AnalysisResult where
  file : String
  issues : List ReviewIssue
deriving DecidableEq, Repr

/-- The `AIReviewResult` interface: what the AI producer returns and what
`mergeAnalysisResults` produces.  `complexityScore`, `securityScore` and
`maintainabilityScore` are optional in the interface and absent (`none`)
in the fallback and empty results. -/
structure AIReviewResult where
  summary : String
  issues : List ReviewIssue
  positiveFindings : List String
  overallScore : Int
  recommendations : List String
  complexityScore : Option Int := none
  securityScore : Option Int := none
  maintainabilityScore : Option Int := none
deriving DecidableEq, Repr

/-! ## Deduplication (`ReviewService.deduplicateIssues`)

```ts
private deduplicateIssues(issues: ReviewIssue[]) {
  const seen = new Set<string>();
  return issues.filter((issue) => {
    const key = `${issue.file}:${issue.line}:${issue.message}`;
    if (seen.has(key)) return false;
    seen.add(key);
    return true;
  });
}
```
-/

/-- Rendering of `issue.line` inside the template string: a missing
optional field prints as `"undefined"`. -/
def lineStr : Option Nat → String
  | none => "undefined"
  | some n => toString n

/-- The dedup key `` `${issue.file}:${issue.line}:${issue.message}` ``. -/
def issueKey (i : ReviewIssue) : String :=
  i.file ++ ":" ++ lineStr i.line ++ ":" ++ i.message

/-- The visited-set filter loop of `deduplicateIssues`, with the mutable
`seen` set made explicit. -/
def dedupGo (seen : List String) : List ReviewIssue → List ReviewIssue
  | [] => []
  | i :: rest =>
    if issueKey i ∈ seen then dedupGo seen rest
    else i :: dedupGo (issueKey i :: seen) rest

/-- `ReviewService.deduplicateIssues`. -/
def deduplicateIssues (issues : List ReviewIssue) : List ReviewIssue :=
  dedupGo [] issues

/-! ## Adjusted score (`ReviewService.calculateAdjustedScore`) -/

/-- The `severityPenalties` table (`critical: 10, high: 5, medium: 2,
low: 1, info: 0`). -/
def severityPenalty : Severity → Int
  | .critical => 10
  | .high => 5
  | .medium => 2
  | .low => 1
  | .info => 0

/-- `ReviewService.calculateAdjustedScore`: accumulate
`severityPenalties[issue.severity] || 0` over the issues, then
`Math.max(0, Math.min(100, baseScore - penalty))`. -/
def calculateAdjustedScore (baseScore : Int) (issues : List ReviewIssue) : Int :=
  let penalty := issues.foldl (fun acc i => acc + severityPenalty i.severity) 0
  max 0 (min 100 (baseScore - penalty))

/-! ## Severity sort (`ReviewService.mergeAnalysisResults`)

```ts
const sortedIssues = uniqueIssues.sort((a, b) => {
  const severityOrder = { critical: 0, high: 1, medium: 2, low: 3, info: 4 };
  return severityOrder[a.severity] - severityOrder[b.severity];
});
```
`Array.prototype.sort` is a stable sort (ES2019); a comparator returning
`rank a - rank b` sorts ascending by rank, preserving the relative order
of rank-equal elements, which is exactly `List.mergeSort` with
`rank a ≤ rank b`. -/

/-- The `severityOrder` rank table. -/
def severityOrder : Severity → Nat
  | .critical => 0
  | .high => 1
  | .medium => 2
  | .low => 3
  | .info => 4

/-- The comparator of the severity sort, as a boolean `≤`. -/
def issueLE (a b : ReviewIssue) : Bool :=
  severityOrder a.severity ≤ severityOrder b.severity

/-- The stable severity sort of `mergeAnalysisResults`. -/
def sortIssues (issues : List ReviewIssue) : List ReviewIssue :=
  issues.mergeSort issueLE

/-- `ReviewService.mergeAnalysisResults`: concatenate the producer issue
lists (AI first, then AST, security, static), deduplicate, severity-sort,
and recompute the overall score from the AI base score. -/
def mergeAnalysisResults (aiReview : AIReviewResult) (astResults : List AnalysisResult)
    (securityResults : List AnalysisResult) (staticResults : List AnalysisResult) :
    AIReviewResult :=
  let allIssues :=
    aiReview.issues ++ (astResults.flatMap (·.issues)) ++
      (securityResults.flatMap (·.issues)) ++ (staticResults.flatMap (·.issues))
  let uniqueIssues := deduplicateIssues allIssues
  let sortedIssues := sortIssues uniqueIssues
  let adjustedScore := calculateAdjustedScore aiReview.overallScore sortedIssues
  { aiReview with issues := sortedIssues, overallScore := adjustedScore }

/-- Reference recursion for first-seen dedup: keep the head, drop every
later issue with the head's key, recurse.  Used to characterize
`deduplicateIssues`. -/
def dedupKeys : List ReviewIssue → List ReviewIssue
  | [] => []
  | x :: xs => x :: dedupKeys (xs.filter (fun y => ¬ issueKey y = issueKey x))
termination_by l => l.length
decreasing_by
  simp only [List.length_cons]
  exact Nat.lt_succ_of_le (List.length_filter_le _ _)

/-- First of a colliding pair: `file = "f"`, `line = 1`, `message = "2:m"`,
whose key string is `"f:1:2:m"`. -/
def collisionIssueA : ReviewIssue :=
  { severity := .high, category := .bug, message := "2:m", file := "f", line := some 1 }

/-- Second of the colliding pair: `file = "f:1"`, `line = 2`,
`message = "m"`, whose key string is also `"f:1:2:m"` although every key
component differs from `collisionIssueA`. -/
def collisionIssueB : ReviewIssue :=
  { severity := .low, category := .style, message := "m", file := "f:1", line := some 2 }

/-- Sample critical security issue used by concrete witnesses. -/
def sampleCritical : ReviewIssue :=
  { severity := .critical, category := .security, message := "SQL injection",
    file := "a.ts", line := some 10 }

/-- Sample low-severity style issue used by concrete witnesses. -/
def sampleLow : ReviewIssue :=
  { severity := .low, category := .style, message := "var usage",
    file := "b.ts", line := some 2 }

/-- Sample AI review used by concrete witnesses: base score 85, issues
listed in reverse severity order so the sort has work to do. -/
def sampleAI : AIReviewResult :=
  { summary := "ok", issues := [sampleLow, sampleCritical],
    positiveFindings := [], overallScore := 85, recommendations := [] }

/-! ## Check-run conclusion policy (`updateCheckRun`, src/utils/githubUtils.ts)

```ts
const totalIssues = analysisResults.reduce((sum, r) => sum + r.issues.length, 0);
const criticalIssues = analysisResults.reduce((sum, r) =>
  sum + r.issues.filter(i => i.severity === 'critical').length, 0);
const securityIssues = analysisResults.reduce((sum, r) => sum + r.securityIssues.length, 0);

let conclusion: 'success' | 'failure' | 'neutral' = 'success';
if (criticalIssues > 0 || securityIssues > 0) {
  conclusion = 'failure';
} else if (totalIssues > 10) {
  conclusion = 'neutral';
}
```
-/

/-- An element of `CodeAnalysisResult.securityIssues` (the scanner's
`SecurityIssue` shape: severity, title, description). -/
structure SecurityIssue where
  severity : Severity
  title : String
  description : String
deriving DecidableEq, Repr

/-- The fields of `CodeAnalysisResult` read by `updateCheckRun`. -/
structure CodeAnalysisResult where
  issues : List ReviewIssue
  securityIssues : List SecurityIssue
deriving DecidableEq, Repr

/-- Check-run conclusion values. -/
inductive Conclusion where
  | success
  | failure
  | neutral
deriving DecidableEq, Repr

/-- The conclusion computation of `updateCheckRun`: `totalIssues`,
`criticalIssues` and `securityIssues` are the summed reduces over the
analysis results, written inline. -/
def decideConclusion (analysisResults : List CodeAnalysisResult) : Conclusion :=
  if 0 < (analysisResults.map (fun r =>
        (r.issues.filter (fun i => i.severity = Severity.critical)).length)).sum ∨
      0 < (analysisResults.map (fun r => r.securityIssues.length)).sum then
    .failure
  else if 10 < (analysisResults.map (fun r => r.issues.length)).sum then
    .neutral
  else
    .success

/-- A low-severity security finding: not blocking under the claimed rule
(critical, or high-severity security). -/
def lowSecFinding : SecurityIssue :=
  { severity := .low, title := "weak-random", description := "weak RNG used" }

/-- One analysis result carrying only the low-severity security finding. -/
def lowSecResult : CodeAnalysisResult :=
  { issues := [], securityIssues := [lowSecFinding] }

/-! ## The ClaudeReviewer producer (claude-reviewer.ts)

`reviewCode` calls the model API inside `try { ... } catch (error) { log;
throw error; }` — an API error or timeout is re-thrown, not recovered.
`parseReviewResponse` extracts the first-`{`-to-last-`}` substring
(`response.match(/\{[\s\S]*\}/)`), `JSON.parse`s it and normalizes the
fields; any failure inside is caught and replaced by the canned fallback
result.  `JSON.parse` itself is modelled as an abstract
`parse : String → Option ParsedReview` supplied as an argument; the
dynamically-typed parsed fields are `Option`s, with `none` for a missing
or wrongly-typed value. -/

/-- A raw issue object of the parsed JSON before validation. -/
structure RawIssue where
  severity : Option String := none
  category : Option String := none
  message : Option String := none
  file : Option String := none
  line : Option Nat := none
  endLine : Option Nat := none
  column : Option Nat := none
  suggestion : Option String := none
  autoFixable : Option Bool := none
  code : Option String := none
deriving DecidableEq, Repr

/-- A successfully `JSON.parse`d review reply.  `issues` entries that are
not objects are modelled as `none` (dropped by `validateIssues`). -/
structure ParsedReview where
  summary : Option String := none
  overallScore : Option Int := none
  securityScore : Option Int := none
  maintainabilityScore : Option Int := none
  complexityScore : Option Int := none
  positiveFindings : Option (List String) := none
  issues : Option (List (Option RawIssue)) := none
  recommendations : Option (List String) := none
deriving DecidableEq, Repr

/-- JavaScript `x || d` for an optional string: missing or empty (falsy)
falls back to the default. -/
def jsOrString (x : Option String) (d : String) : String :=
  match x with
  | none => d
  | some s => if s = "" then d else s

/-- `ClaudeReviewer.normalizeScore`: a non-numeric, non-parsable score
becomes 50; a numeric one is clamped to `[0,100]`. -/
def normalizeScore (score : Option Int) : Int :=
  match score with
  | none => 50
  | some n => max 0 (min 100 n)

/-- Severity strings accepted by `normalizeSeverity`. -/
def severityOfString (s : String) : Option Severity :=
  if s = "critical" then some .critical
  else if s = "high" then some .high
  else if s = "medium" then some .medium
  else if s = "low" then some .low
  else if s = "info" then some .info
  else none

/-- `ClaudeReviewer.normalizeSeverity`: lowercase, keep if recognized,
default `medium`. -/
def normalizeSeverity (severity : Option String) : Severity :=
  match severity with
  | none => .medium
  | some s => (severityOfString s.toLower).getD .medium

/-- Category strings accepted by `normalizeCategory`. -/
def categoryOfString (s : String) : Option Category :=
  if s = "security" then some .security
  else if s = "performance" then some .performance
  else if s = "maintainability" then some .maintainability
  else if s = "style" then some .style
  else if s = "bug" then some .bug
  else if s = "best-practice" then some .bestPractice
  else none

/-- `ClaudeReviewer.normalizeCategory`: lowercase, keep if recognized,
default `maintainability`. -/
def normalizeCategory (category : Option String) : Category :=
  match category with
  | none => .maintainability
  | some s => (categoryOfString s.toLower).getD .maintainability

/-- The per-issue normalization of `ClaudeReviewer.validateIssues`. -/
def validateIssue (issue : RawIssue) : ReviewIssue :=
  { severity := normalizeSeverity issue.severity,
    category := normalizeCategory issue.category,
    message := jsOrString issue.message "Issue detected",
    file := jsOrString issue.file "unknown",
    line := issue.line,
    endLine := issue.endLine,
    column := issue.column,
    suggestion := some (jsOrString issue.suggestion ""),
    autoFixable := issue.autoFixable = some true,
    code := issue.code }

/-- `ClaudeReviewer.validateIssues`: drop non-object entries, normalize
the rest. -/
def validateIssues (issues : List (Option RawIssue)) : List ReviewIssue :=
  (issues.filterMap id).map validateIssue

/-- The canned fallback review returned when parsing fails. -/
def fallbackReviewResult : AIReviewResult :=
  { summary := "Review completed with parsing issues. Please check manually.",
    overallScore := 50,
    positiveFindings := [],
    issues := [],
    recommendations := ["Manual review recommended due to parsing error"] }

/-- The regex extraction `response.match(/\x7b[\s\S]*\x7d/)`: the greedy
match runs from the first opening brace to the last closing brace of the
whole string, and fails when no closing brace follows an opening one. -/
def extractJson (response : String) : Option String :=
  let cs := response.data
  match cs.findIdx? (fun c => c = '{'), cs.reverse.findIdx? (fun c => c = '}') with
  | some i, some k =>
    let j := cs.length - 1 - k
    if i < j then some (String.mk ((cs.drop i).take (j - i + 1))) else none
  | _, _ => none

/-- `ClaudeReviewer.parseReviewResponse`: extract, parse, normalize; any
failure yields the fallback result. -/
def parseReviewResponse (parse : String → Option ParsedReview)
    (response : String) : AIReviewResult :=
  match extractJson response with
  | none => fallbackReviewResult
  | some jsonText =>
    match parse jsonText with
    | none => fallbackReviewResult
    | some parsed =>
      { summary := jsOrString parsed.summary "Code review completed",
        overallScore := normalizeScore parsed.overallScore,
        securityScore := some (normalizeScore parsed.securityScore),
        maintainabilityScore := some (normalizeScore parsed.maintainabilityScore),
        complexityScore := some (normalizeScore parsed.complexityScore),
        positiveFindings := parsed.positiveFindings.getD [],
        issues := validateIssues (parsed.issues.getD []),
        recommendations := parsed.recommendations.getD [] }

/-- `ClaudeReviewer.reviewCode`: the outcome of the API call is passed in
(`.ok responseText` or `.error e`); an API failure is re-thrown
(`catch (error) { logger.error(...); throw error; }`), a successful reply
is parsed. -/
def claudeReviewCode (callOutcome : Except String String)
    (parse : String → Option ParsedReview) : Except String AIReviewResult :=
  match callOutcome with
  | .error e => .error e
  | .ok responseText => .ok (parseReviewResponse parse responseText)

/-! ## The review pipeline (`ReviewService.reviewPullRequest`) -/

/-- The `CodeFile` interface. -/
structure CodeFile where
  filename : String
  content : String
  language : String
  patch : Option String := none
  additions : Nat := 0
  deletions : Nat := 0
  changes : Nat := 0
deriving DecidableEq, Repr

/-- The fields of a PR file entry (`octokit.pulls.listFiles` element) read
by `fetchPRFiles`. -/
structure PRFile where
  filename : String
  status : String
  changes : Nat
  additions : Nat := 0
  deletions : Nat := 0
  patch : Option String := none
deriving DecidableEq, Repr

/-- `ReviewService.isBinaryFile`: lowercase the name, test the binary
extension list. -/
def isBinaryFile (filename : String) : Bool :=
  ([".png", ".jpg", ".jpeg", ".gif", ".ico", ".pdf", ".zip", ".tar", ".gz",
    ".exe", ".dll", ".so", ".dylib", ".woff", ".woff2", ".ttf", ".eot"]).any
    (fun ext => filename.toLower.endsWith ext)

/-- The extension-to-language table of `detectLanguage`. -/
def langMap (ext : String) : Option String :=
  if ext = "ts" then some "typescript"
  else if ext = "tsx" then some "typescript"
  else if ext = "js" then some "javascript"
  else if ext = "jsx" then some "javascript"
  else if ext = "py" then some "python"
  else if ext = "go" then some "go"
  else if ext = "rs" then some "rust"
  else if ext = "java" then some "java"
  else if ext = "rb" then some "ruby"
  else if ext = "php" then some "php"
  else if ext = "cs" then some "csharp"
  else if ext = "cpp" then some "cpp"
  else if ext = "c" then some "c"
  else if ext = "swift" then some "swift"
  else if ext = "kt" then some "kotlin"
  else none

/-- `ReviewService.detectLanguage`: last `.`-separated component,
lowercased, looked up with default `"text"`. -/
def detectLanguage (filename : String) : String :=
  (langMap (((filename.splitOn ".").getLastD "").toLower)).getD "text"

/-- `ReviewService.fetchPRFiles`: drop removed files, files with more than
1000 changes and binary files; fetch each remaining file's content
(`fetchContent` models the `getContent` call, `none` for a fetch error or
a response without a `content` field) and drop files whose content is
missing or empty (falsy). -/
def fetchPRFiles (prFiles : List PRFile) (fetchContent : PRFile → Option String) :
    List CodeFile :=
  prFiles.filterMap (fun file =>
    if file.status = "removed" ∨ 1000 < file.changes ∨ isBinaryFile file.filename then
      none
    else
      match fetchContent file with
      | none => none
      | some content =>
        if content = "" then none
        else some { filename := file.filename, content := content,
                    language := detectLanguage file.filename, patch := file.patch,
                    additions := file.additions, deletions := file.deletions,
                    changes := file.changes })

/-- The per-file producer loop shared by `SecurityScanner.scanFiles` and
`StaticAnalyzer.analyzeFiles`: one `AnalysisResult` per input file, whose
issues come from scanning that file (each construction site in the source
sets `file: file.filename`). -/
def scanFiles (scanFile : CodeFile → List ReviewIssue) (files : List CodeFile) :
    List AnalysisResult :=
  files.map (fun file => { file := file.filename, issues := scanFile file })

/-- `ReviewService.runASTAnalysis`: per-file try/catch — a file whose
analysis throws is skipped (no result pushed). -/
def runASTAnalysis (astRun : CodeFile → Except String AnalysisResult)
    (files : List CodeFile) : List AnalysisResult :=
  files.filterMap (fun file => (astRun file).toOption)

/-- `ReviewService.runSecurityScan`: the whole scan runs in a try/catch
that logs and returns `[]` on failure. -/
def runSecurityScan (securityScan : List CodeFile → Except String (List AnalysisResult))
    (files : List CodeFile) : List AnalysisResult :=
  match securityScan files with
  | .ok results => results
  | .error _ => []

/-- `ReviewService.runStaticAnalysis`: same recovery shape as the
security scan. -/
def runStaticAnalysis (staticAnalyze : List CodeFile → Except String (List AnalysisResult))
    (files : List CodeFile) : List AnalysisResult :=
  match staticAnalyze files with
  | .ok results => results
  | .error _ => []

/-- `ReviewService.getEmptyReviewResult`. -/
def getEmptyReviewResult : AIReviewResult :=
  { summary := "No files to review",
    overallScore := 100,
    positiveFindings := [],
    issues := [],
    recommendations := [] }

/-- `ReviewService.reviewPullRequest` over the fetched file list: keep at
most the first 20 files, run the three static producers (the security scan
only when the feature flag is on) and the AI call, and merge.  An AI call
failure propagates out of the surrounding try/catch, which re-throws. -/
def reviewPullRequest (files : List CodeFile)
    (astRun : CodeFile → Except String AnalysisResult)
    (securityScan : List CodeFile → Except String (List AnalysisResult))
    (staticAnalyze : List CodeFile → Except String (List AnalysisResult))
    (securityScanEnabled : Bool)
    (aiCall : List CodeFile → Except String String)
    (parse : String → Option ParsedReview) : Except String AIReviewResult :=
  if files.isEmpty then .ok getEmptyReviewResult
  else
    let filesToAnalyze := files.take 20
    let astResults := runASTAnalysis astRun filesToAnalyze
    let securityResults :=
      if securityScanEnabled then runSecurityScan securityScan filesToAnalyze else []
    let staticResults := runStaticAnalysis staticAnalyze filesToAnalyze
    match claudeReviewCode (aiCall filesToAnalyze) parse with
    | .error e => .error e
    | .ok aiReview =>
      .ok (mergeAnalysisResults aiReview astResults securityResults staticResults)

/-- Sample code file used by concrete witnesses. -/
def sampleFile : CodeFile :=
  { filename := "a.ts", content := "var x = 1\n", language := "typescript",
    changes := 2 }

/-- Sample PR file entry used by concrete witnesses. -/
def samplePRFile : PRFile :=
  { filename := "a.ts", status := "modified", changes := 2 }

/-! ## Auto-merge gating (`setupAutoMergeHandlers`)

Per open PR on the completed (successful) check suite's branch:
skip unless the `auto-merge` label is present; skip unless some review is
`APPROVED`; find the first comment whose body includes
`"Code Sensei AI Review"`, and if it exists and matches
`/Overall Score:\*\* (\d+)\/100/`, require `score >= minScore`
(`scoreAcceptable` starts as `true` and is only ever lowered by a parsed
score); then merge. -/

/-- JavaScript `text.includes(pat)` over character lists. -/
def containsSubstr : List Char → List Char → Bool
  | [], pat => pat.isEmpty
  | c :: rest, pat => pat.isPrefixOf (c :: rest) || containsSubstr rest pat

/-- JavaScript `String.prototype.includes`. -/
def jsIncludes (s pat : String) : Bool :=
  containsSubstr s.data pat.data

/-- `parseInt` on a non-empty run of decimal digits. -/
def digitsToNat (ds : List Char) : Nat :=
  ds.foldl (fun n c => 10 * n + (c.toNat - 48)) 0

/-- The literal prefix of the score regex. -/
def overallScorePattern : List Char := "Overall Score:** ".data

/-- Try the regex `Overall Score:\*\* (\d+)\/100` anchored at the head of
`cs`: the literal prefix, a maximal non-empty digit run, then `/100`
(equivalent to the greedy `\d+` with backtracking, since `/` is not a
digit). -/
def matchScoreAt (cs : List Char) : Option Nat :=
  if overallScorePattern.isPrefixOf cs then
    let rest := cs.drop overallScorePattern.length
    let ds := rest.takeWhile (fun c => c.isDigit)
    if ds.isEmpty then none
    else if ("/100".data).isPrefixOf (rest.drop ds.length) then some (digitsToNat ds)
    else none
  else none

/-- First-match scan of the score regex. -/
def findScoreMatch : List Char → Option Nat
  | [] => none
  | c :: rest =>
    match matchScoreAt (c :: rest) with
    | some n => some n
    | none => findScoreMatch rest

/-- `body.match(/Overall Score:\*\* (\d+)\/100/)`, returning the captured
number of the first match. -/
def matchOverallScore (body : String) : Option Nat :=
  findScoreMatch body.data

/-- The per-PR data the auto-merge handler reads: label names, review
states, and the bodies of the issue comments. -/
structure PullInfo where
  labels : List String
  reviewStates : List String
  commentBodies : List String
deriving DecidableEq, Repr

/-- `pull.labels.some(label => label.name === 'auto-merge')`. -/
def hasAutoMergeLabel (pull : PullInfo) : Bool :=
  pull.labels.any (fun l => l = "auto-merge")

/-- `reviews.data.some(review => review.state === 'APPROVED')`. -/
def hasApproval (pull : PullInfo) : Bool :=
  pull.reviewStates.any (fun s => s = "APPROVED")

/-- `comments.data.find(comment => comment.body?.includes('Code Sensei AI
Review'))`. -/
def findSenseiComment (commentBodies : List String) : Option String :=
  commentBodies.find? (fun body => jsIncludes body "Code Sensei AI Review")

/-- The `scoreAcceptable` computation: initialized `true`; only a found
comment with a parsed score can lower it to `score >= minScore`. -/
def scoreAcceptable (minScore : Nat) (commentBodies : List String) : Bool :=
  match findSenseiComment commentBodies with
  | none => true
  | some body =>
    match matchOverallScore body with
    | none => true
    | some score => minScore ≤ score

/-- Whether `setupAutoMergeHandlers` merges a given PR: the handler runs
only when auto-merge is enabled and the check suite concluded `success`,
then per PR requires the label, an approval, and `scoreAcceptable`. -/
def shouldAutoMerge (autoMergeEnabled : Bool) (checkSuiteConclusion : String)
    (minScore : Nat) (pull : PullInfo) : Bool :=
  autoMergeEnabled && checkSuiteConclusion == "success" && hasAutoMergeLabel pull &&
    hasApproval pull && scoreAcceptable minScore pull.commentBodies

/-- A PR that opted in and is approved but has no review comment at all:
no score can be established. -/
def noScorePull : PullInfo :=
  { labels := ["auto-merge"], reviewStates := ["APPROVED"], commentBodies := [] }

/-! ## Auto-fix application (`AutoFixService.applyFix`)

```ts
private applyFix(content: string, issue: ReviewIssue): string {
  const lines = content.split('\n');
  if (!issue.line || issue.line > lines.length) return content;
  const lineIndex = issue.line - 1;
  const line = lines[lineIndex];
  switch (issue.code) {
    case 'no-var': lines[lineIndex] = line.replace(/\bvar\b/, 'const'); break;
    case 'no-console': lines[lineIndex] = ''; break;
    case 'no-debugger': lines[lineIndex] = ''; break;
    case 'missing-semicolon': lines[lineIndex] = line.trimEnd() + ';'; break;
    case 'trailing-whitespace': lines[lineIndex] = line.trimEnd(); break;
    case 'double-quotes': lines[lineIndex] = line.replace(/"/g, "'"); break;
    default: /* log only */
  }
  return lines.join('\n');
}
```
Content is modelled as a character list; `split`/`join` on `'\n'` are
`splitLines`/`joinLines`. -/

/-- `content.split('\n')` (JavaScript split on a single character: the
empty string yields `[""]`). -/
def splitLines : List Char → List (List Char)
  | [] => [[]]
  | c :: cs =>
    if c = '\n' then [] :: splitLines cs
    else
      match splitLines cs with
      | [] => [[c]]
      | l :: ls => (c :: l) :: ls

/-- `lines.join('\n')`. -/
def joinLines : List (List Char) → List Char
  | [] => []
  | [l] => l
  | l :: ls => l ++ '\n' :: joinLines ls

/-- JavaScript `\w` (word character) for the `\b` boundaries. -/
def isWordChar (c : Char) : Bool :=
  c.isAlpha || c.isDigit || c = '_'

/-- A `\b` boundary holds to the left of a match position given the
preceding character (`none` at the start of the string). -/
def atWordBoundaryLeft : Option Char → Bool
  | none => true
  | some c => !isWordChar c

/-- A `\b` boundary holds after a match given the remaining characters. -/
def atWordBoundaryRight : List Char → Bool
  | [] => true
  | c :: _ => !isWordChar c

/-- `line.replace(/\bvar\b/, 'const')`: scan for the first occurrence of
the word `var` with `\b` boundaries on both sides and replace it. -/
def replaceVarGo : Option Char → List Char → List Char
  | _, [] => []
  | prev, 'v' :: 'a' :: 'r' :: rest =>
    if atWordBoundaryLeft prev = true ∧ atWordBoundaryRight rest = true then
      'c' :: 'o' :: 'n' :: 's' :: 't' :: rest
    else 'v' :: replaceVarGo (some 'v') ('a' :: 'r' :: rest)
  | _, c :: cs => c :: replaceVarGo (some c) cs

/-- Entry point of the `no-var` rewrite. -/
def replaceFirstVar (line : List Char) : List Char :=
  replaceVarGo none line

/-- JavaScript whitespace (the characters relevant to `trimEnd`/`trim` in
source files). -/
def jsIsWhitespace (c : Char) : Bool :=
  c = ' ' || c = '\t' || c = '\n' || c = '\r' ||
    c = Char.ofNat 11 || c = Char.ofNat 12

/-- `line.trimEnd()`. -/
def trimEnd (line : List Char) : List Char :=
  (line.reverse.dropWhile jsIsWhitespace).reverse

/-- `line.trim()`. -/
def trimChars (line : List Char) : List Char :=
  trimEnd (line.dropWhile jsIsWhitespace)

/-- The single-quote character. -/
def quoteChar : Char := Char.ofNat 39

/-- The per-rule line rewrite of the `switch (issue.code)`; the `default`
branch only logs and leaves the line unchanged. -/
def fixLine (code : Option String) (line : List Char) : List Char :=
  if code = some "no-var" then replaceFirstVar line
  else if code = some "no-console" then []
  else if code = some "no-debugger" then []
  else if code = some "missing-semicolon" then trimEnd line ++ [';']
  else if code = some "trailing-whitespace" then trimEnd line
  else if code = some "double-quotes" then
    line.map (fun c => if c = '"' then quoteChar else c)
  else line

/-- The rule codes the fixer recognizes. -/
def autoFixWhitelist : List String :=
  ["no-var", "no-console", "no-debugger", "missing-semicolon",
   "trailing-whitespace", "double-quotes"]

/-- `AutoFixService.applyFix`. -/
def applyFix (content : List Char) (issue : ReviewIssue) : List Char :=
  let lines := splitLines content
  match issue.line with
  | none => content
  | some n =>
    if n = 0 ∨ lines.length < n then content
    else joinLines (lines.set (n - 1) (fixLine issue.code (lines.getD (n - 1) [])))

/-! ## Complexity estimator (`ComplexityAnalyzer`, part of the analyzers)

`analyze` computes `linesOfCode` (non-blank lines not starting with `//`
after trimming), a regex-count cyclomatic complexity, a line-based
cognitive complexity, and the maintainability index

```ts
const halsteadVolumeApprox = Math.log(loc) * 5;
const mi = Math.max(0,
  171 - 5.2 * Math.log(halsteadVolumeApprox + 1) - 0.23 * cyclomatic
      - 16.2 * Math.log(loc + 1));
return Math.min(100, Math.max(0, mi));
```

over JavaScript IEEE-754 numbers: `Math.log(0) = -Infinity` and
`Math.log` of a negative number (in particular `-Infinity + 1`) is `NaN`,
which then propagates through `*`, `-`, `Math.max` and `Math.min`.
`JSNum` models this value space exactly: real numbers extended with the
infinities and `NaN`. -/

/-- A JavaScript number that is either finite (a real), an infinity, or
`NaN`. -/
inductive JSNum where
  | nan
  | posinf
  | neginf
  | fin (x : ℝ)

/-- `Math.log` on extended values: `log 0 = -∞`, `log` of a negative
number or of `-∞` is `NaN`, `log ∞ = ∞`. -/
noncomputable def jsLog : JSNum → JSNum
  | .nan => .nan
  | .posinf => .posinf
  | .neginf => .nan
  | .fin x => if 0 < x then .fin (Real.log x) else if x = 0 then .neginf else .nan

/-- IEEE addition on extended values: `NaN` propagates, `∞ + -∞ = NaN`. -/
noncomputable def jsAdd : JSNum → JSNum → JSNum
  | .nan, _ => .nan
  | _, .nan => .nan
  | .posinf, .neginf => .nan
  | .neginf, .posinf => .nan
  | .posinf, _ => .posinf
  | _, .posinf => .posinf
  | .neginf, _ => .neginf
  | _, .neginf => .neginf
  | .fin x, .fin y => .fin (x + y)

/-- IEEE negation. -/
noncomputable def jsNeg : JSNum → JSNum
  | .nan => .nan
  | .posinf => .neginf
  | .neginf => .posinf
  | .fin x => .fin (-x)

/-- IEEE subtraction, `a - b = a + (-b)`. -/
noncomputable def jsSub (a b : JSNum) : JSNum :=
  jsAdd a (jsNeg b)

/-- IEEE multiplication: `NaN` propagates, `0 * ±∞ = NaN`, signs
otherwise. -/
noncomputable def jsMul : JSNum → JSNum → JSNum
  | .nan, _ => .nan
  | _, .nan => .nan
  | .fin x, .fin y => .fin (x * y)
  | .posinf, .posinf => .posinf
  | .posinf, .neginf => .neginf
  | .neginf, .posinf => .neginf
  | .neginf, .neginf => .posinf
  | .posinf, .fin y => if 0 < y then .posinf else if y = 0 then .nan else .neginf
  | .fin x, .posinf => if 0 < x then .posinf else if x = 0 then .nan else .neginf
  | .neginf, .fin y => if 0 < y then .neginf else if y = 0 then .nan else .posinf
  | .fin x, .neginf => if 0 < x then .neginf else if x = 0 then .nan else .posinf

/-- `Math.max`: `NaN` if either argument is `NaN`. -/
noncomputable def jsMax : JSNum → JSNum → JSNum
  | .nan, _ => .nan
  | _, .nan => .nan
  | .posinf, _ => .posinf
  | _, .posinf => .posinf
  | .neginf, b => b
  | a, .neginf => a
  | .fin x, .fin y => .fin (max x y)

/-- `Math.min`: `NaN` if either argument is `NaN`. -/
noncomputable def jsMin : JSNum → JSNum → JSNum
  | .nan, _ => .nan
  | _, .nan => .nan
  | .neginf, _ => .neginf
  | _, .neginf => .neginf
  | .posinf, b => b
  | a, .posinf => a
  | .fin x, .fin y => .fin (min x y)

/-- `linesOfCode`: lines that are non-empty after trimming and do not
start with `//`. -/
def linesOfCode (content : List Char) : Nat :=
  ((splitLines content).filter (fun line =>
    !(trimChars line).isEmpty && !(("//".data).isPrefixOf (trimChars line)))).length

/-- Count the non-overlapping occurrences of the word `c0 :: wrest` with
`\b` boundaries on both sides (`/\bword\b/g`), scanning left to right and
resuming after each match. -/
def countWordGo (c0 : Char) (wrest : List Char) : Option Char → List Char → Nat
  | _, [] => 0
  | prev, c :: cs =>
    if c = c0 ∧ wrest.isPrefixOf cs ∧ atWordBoundaryLeft prev = true ∧
        atWordBoundaryRight (cs.drop wrest.length) = true then
      1 + countWordGo c0 wrest (some (wrest.getLastD c0)) (cs.drop wrest.length)
    else countWordGo c0 wrest (some c) cs
termination_by _ l => l.length
decreasing_by
  · simp only [List.length_cons, List.length_drop]
    omega
  · simp only [List.length_cons]
    omega

/-- `content.match(/\bword\b/g)?.length ?? 0`. -/
def countWord (w : String) (cs : List Char) : Nat :=
  match w.data with
  | [] => 0
  | c0 :: wrest => countWordGo c0 wrest none cs

/-- Match `/\belse\s+if\b/` at the head of the input, returning the match
length (the maximal whitespace run followed by `if` is equivalent to the
greedy `\s+` because `i` is not whitespace). -/
def matchElseIfLen (prev : Option Char) (cs : List Char) : Option Nat :=
  if ("else".data).isPrefixOf cs ∧ atWordBoundaryLeft prev = true then
    let rest := cs.drop 4
    let ws := rest.takeWhile jsIsWhitespace
    if ¬ ws.isEmpty ∧ ("if".data).isPrefixOf (rest.drop ws.length) ∧
        atWordBoundaryRight (rest.drop (ws.length + 2)) = true then
      some (4 + ws.length + 2)
    else none
  else none

/-- Count non-overlapping `/\belse\s+if\b/g` matches.  After a match of
length `n ≥ 7` the scan resumes past it (`cs.drop (n - 1)` of the tail
equals dropping `n` from the whole input). -/
def countElseIfGo : Option Char → List Char → Nat
  | _, [] => 0
  | prev, c :: cs =>
    match matchElseIfLen prev (c :: cs) with
    | some n => 1 + countElseIfGo (some 'f') (cs.drop (n - 1))
    | none => countElseIfGo (some c) cs
termination_by _ l => l.length
decreasing_by
  · simp only [List.length_cons, List.length_drop]
    omega
  · simp only [List.length_cons]
    omega

/-- `content.match(/\belse\s+if\b/g)?.length ?? 0`. -/
def countElseIf (cs : List Char) : Nat :=
  countElseIfGo none cs

/-- Count non-overlapping occurrences of a literal pattern (`/&&/g`,
`/\|\|/g`, `/\?/g`). -/
def countSubstrGo (p0 : Char) (prest : List Char) : List Char → Nat
  | [] => 0
  | c :: cs =>
    if c = p0 ∧ prest.isPrefixOf cs then
      1 + countSubstrGo p0 prest (cs.drop prest.length)
    else countSubstrGo p0 prest cs
termination_by l => l.length
decreasing_by
  · simp only [List.length_cons, List.length_drop]
    omega
  · simp only [List.length_cons]
    omega

/-- `content.match(pattern)?.length ?? 0` for a literal pattern. -/
def countSubstr (p : String) (cs : List Char) : Nat :=
  match p.data with
  | [] => 0
  | c0 :: prest => countSubstrGo c0 prest cs

/-- `ComplexityAnalyzer.calculateCyclomaticComplexity`: base 1 plus one
per occurrence of each decision-point pattern. -/
def calculateCyclomaticComplexity (content : List Char) : Nat :=
  1 + countWord "if" content + countElseIf content + countWord "while" content +
    countWord "for" content + countWord "case" content + countWord "catch" content +
    countWord "and" content + countWord "or" content + countSubstr "&&" content +
    countSubstr "||" content + countSubstr "?" content

/-- The line test `/\b(if|while|for|case)\b/`. -/
def hasControlKeyword (line : List Char) : Bool :=
  decide (countWord "if" line ≠ 0) || decide (countWord "while" line ≠ 0) ||
    decide (countWord "for" line ≠ 0) || decide (countWord "case" line ≠ 0)

/-- One line of `calculateCognitiveComplexity`: update the nesting counter
on `{` / `}` (floored at 0 via `Nat` subtraction), add `1 + nesting` for a
control keyword, one per logical operator, and one for a `return` with a
parenthesis. -/
def cognitiveStep (acc : Nat × Nat) (line : List Char) : Nat × Nat :=
  let nesting1 := if line.contains '{' then acc.2 + 1 else acc.2
  let nesting2 := if line.contains '}' then nesting1 - 1 else nesting1
  let c1 := if hasControlKeyword line then acc.1 + 1 + nesting2 else acc.1
  let c2 := c1 + countSubstr "&&" line + countSubstr "||" line
  let c3 := if containsSubstr line ("return".data) && line.contains '(' then c2 + 1 else c2
  (c3, nesting2)

/-- `ComplexityAnalyzer.calculateCognitiveComplexity`. -/
def calculateCognitiveComplexity (content : List Char) : Nat :=
  ((splitLines content).foldl cognitiveStep (0, 0)).1

/-- `ComplexityMetrics` with the maintainability index kept as a
JavaScript number. -/
structure ComplexityMetrics where
  cyclomaticComplexity : Nat
  cognitiveComplexity : Nat
  linesOfCode : Nat
  maintainabilityIndex : JSNum

/-- `ComplexityAnalyzer.calculateMaintainabilityIndex` (the `cognitive`
argument is accepted and unused, as in the source). -/
noncomputable def calculateMaintainabilityIndex (loc cyclomatic : Nat)
    (_cognitive : Nat) : JSNum :=
  let halsteadVolumeApprox := jsMul (jsLog (.fin (loc : ℝ))) (.fin 5)
  let mi := jsMax (.fin 0)
    (jsSub (jsSub (jsSub (.fin 171)
      (jsMul (.fin 5.2) (jsLog (jsAdd halsteadVolumeApprox (.fin 1)))))
      (jsMul (.fin 0.23) (.fin (cyclomatic : ℝ))))
      (jsMul (.fin 16.2) (jsLog (.fin ((loc : ℝ) + 1)))))
  jsMin (.fin 100) (jsMax (.fin 0) mi)

/-- `ComplexityAnalyzer.analyze`. -/
noncomputable def analyze (content : List Char) : ComplexityMetrics :=
  { linesOfCode := linesOfCode content,
    cyclomaticComplexity := calculateCyclomaticComplexity content,
    cognitiveComplexity := calculateCognitiveComplexity content,
    maintainabilityIndex := calculateMaintainabilityIndex (linesOfCode content)
      (calculateCyclomaticComplexity content) (calculateCognitiveComplexity content) }

end CodeSensei

namespace CodeSensei

/-! ## Properties of deduplication -/

theorem dedupGo_eq_dedupKeys_filter (seen : List String) (l : List ReviewIssue) :
    dedupGo seen l = dedupKeys (l.filter (fun y => ¬ issueKey y ∈ seen)) := by
  induction l generalizing seen with
  | nil => simp [dedupGo, dedupKeys]
  | cons i rest ih =>
    by_cases h : issueKey i ∈ seen
    · rw [dedupGo, if_pos h, List.filter_cons, if_neg (by simpa using h)]
      exact ih seen
    · rw [dedupGo, if_neg h, List.filter_cons, if_pos (by simpa using h),
        dedupKeys, ih (issueKey i :: seen)]
      have hfilters : rest.filter (fun y => ¬ issueKey y ∈ issueKey i :: seen) =
          (rest.filter (fun y => ¬ issueKey y ∈ seen)).filter
            (fun y => ¬ issueKey y = issueKey i) := by
        rw [List.filter_filter]
        congr 1
        funext y
        by_cases h1 : issueKey y = issueKey i <;>
          by_cases h2 : issueKey y ∈ seen <;>
            simp [h1, h2]
      rw [hfilters]

theorem deduplicateIssues_eq_dedupKeys (l : List ReviewIssue) :
    deduplicateIssues l = dedupKeys l := by
  rw [deduplicateIssues, dedupGo_eq_dedupKeys_filter]
  simp

theorem dedupKeys_sublist (l : List ReviewIssue) : List.Sublist (dedupKeys l) l := by
  induction l using dedupKeys.induct with
  | case1 => simp [dedupKeys]
  | case2 x xs ih =>
    rw [dedupKeys]
    exact (ih.trans (List.filter_sublist _)).cons₂ x

theorem dedupKeys_pairwise (l : List ReviewIssue) :
    (dedupKeys l).Pairwise (fun a b => issueKey a ≠ issueKey b) := by
  induction l using dedupKeys.induct with
  | case1 => simp [dedupKeys]
  | case2 x xs ih =>
    rw [dedupKeys]
    refine List.Pairwise.cons (fun b hb => ?_) ih
    have hb' : b ∈ xs.filter (fun y => ¬ issueKey y = issueKey x) :=
      (dedupKeys_sublist _).subset hb
    have hkey : ¬ issueKey b = issueKey x := by
      have := List.of_mem_filter hb'
      simp only [decide_eq_true_eq] at this
      exact this
    exact fun h => hkey h.symm

/-- `find?`-through-`filter`: dropping only elements that fail `p` does not
change the first element satisfying `p`. -/
theorem find?_filter_of_imp {p q : ReviewIssue → Bool} (l : List ReviewIssue)
    (h : ∀ y, p y = true → q y = true) :
    (l.filter q).find? p = l.find? p := by
  induction l with
  | nil => rfl
  | cons a as ih =>
    by_cases hp : p a = true
    · rw [List.filter_cons, if_pos (h a hp), List.find?_cons_of_pos _ hp,
        List.find?_cons_of_pos _ hp]
    · by_cases hq : q a = true
      · rw [List.filter_cons, if_pos hq, List.find?_cons_of_neg _ hp,
          List.find?_cons_of_neg _ hp]
        exact ih
      · rw [List.filter_cons, if_neg hq, List.find?_cons_of_neg _ hp]
        exact ih

theorem mem_dedupKeys_iff (l : List ReviewIssue) (x : ReviewIssue) :
    x ∈ dedupKeys l ↔
      x ∈ l ∧ l.find? (fun y => issueKey y = issueKey x) = some x := by
  induction l using dedupKeys.induct with
  | case1 => simp [dedupKeys]
  | case2 a as ih =>
    rw [dedupKeys]
    by_cases hk : issueKey a = issueKey x
    · constructor
      · intro hx
        rcases List.mem_cons.mp hx with rfl | hx'
        · exact ⟨List.mem_cons_self _ _, by
            rw [List.find?_cons_of_pos _ (by simp [hk])]⟩
        · exfalso
          have hx'' : x ∈ as.filter (fun y => ¬ issueKey y = issueKey a) :=
            (dedupKeys_sublist _).subset hx'
          have := List.of_mem_filter hx''
          simp [hk] at this
      · rintro ⟨_, hfind⟩
        rw [List.find?_cons_of_pos _ (by simpa using hk)] at hfind
        simp only [Option.some.injEq] at hfind
        subst hfind
        exact List.mem_cons_self _ _
    · have hxa : ¬ x = a := fun h => hk (by rw [h])
      have himp : ∀ y, (fun y => decide (issueKey y = issueKey x)) y = true →
          (fun y => decide (¬ issueKey y = issueKey a)) y = true := by
        intro y hy
        simp only [decide_eq_true_eq] at hy ⊢
        exact fun hcon => hk (hcon.symm.trans hy)
      rw [List.mem_cons, ih, List.mem_cons,
        List.find?_cons_of_neg _ (by simpa using hk)]
      constructor
      · rintro (rfl | ⟨hmem, hfind⟩)
        · exact absurd rfl hxa
        · refine ⟨Or.inr (List.mem_of_mem_filter hmem), ?_⟩
          rw [← hfind, find?_filter_of_imp as himp]
      · rintro ⟨hmem, hfind⟩
        rcases hmem with rfl | hmem
        · exact absurd rfl hxa
        · refine Or.inr ⟨?_, ?_⟩
          · refine List.mem_filter.mpr ⟨hmem, ?_⟩
            simp only [decide_eq_true_eq]
            exact fun hcon => hk hcon.symm
          · rw [find?_filter_of_imp as himp]
            exact hfind

/-- C1 counterexample: the dedup key is the concatenated string
`file:line:message`, which is not injective in its components.
`collisionIssueA` and `collisionIssueB` differ in file, line and message,
yet the second is dropped — refuting the claim that issues differing in
any key component are both kept. -/
theorem deduplicateIssues_key_collision_counterexample :
    collisionIssueA.file ≠ collisionIssueB.file ∧
    collisionIssueA.line ≠ collisionIssueB.line ∧
    collisionIssueA.message ≠ collisionIssueB.message ∧
    deduplicateIssues [collisionIssueA, collisionIssueB] = [collisionIssueA] := by
  refine ⟨by decide, by decide, by decide, ?_⟩
  decide

/-- C1 (amended): deduplication keeps, for the string key
`file:line:message` (with an absent line rendered `"undefined"`), exactly
the first-seen issue of each key group: the survivors are a subsequence of
the input with pairwise-distinct keys, an issue survives iff it is the
first of its key group, and the key — hence the grouping — depends only on
`(file, line, message)`, never on severity; distinct `(file, line, message)`
triples are both kept precisely when their key strings differ, which can
fail when components contain `':'`. -/
theorem deduplicateIssues_first_seen_by_key (l : List ReviewIssue) :
    List.Sublist (deduplicateIssues l) l ∧
    (deduplicateIssues l).Pairwise (fun a b => issueKey a ≠ issueKey b) ∧
    (∀ x, x ∈ deduplicateIssues l ↔
      x ∈ l ∧ l.find? (fun y => issueKey y = issueKey x) = some x) ∧
    (∀ a b : ReviewIssue, a.file = b.file → a.line = b.line →
      a.message = b.message → issueKey a = issueKey b) := by
  rw [deduplicateIssues_eq_dedupKeys]
  refine ⟨dedupKeys_sublist l, dedupKeys_pairwise l, mem_dedupKeys_iff l, ?_⟩
  intro a b hf hl hm
  simp [issueKey, hf, hl, hm]

/-! ## Properties of the severity sort -/

theorem issueLE_trans (a b c : ReviewIssue) :
    issueLE a b → issueLE b c → issueLE a c := by
  simp only [issueLE, decide_eq_true_eq]
  omega

theorem issueLE_total (a b : ReviewIssue) : issueLE a b || issueLE b a := by
  simp only [issueLE]
  by_cases h : severityOrder a.severity ≤ severityOrder b.severity
  · simp [h]
  · simp [Nat.le_of_lt (Nat.lt_of_not_le h)]

theorem sortIssues_pairwise (l : List ReviewIssue) :
    (sortIssues l).Pairwise (fun a b => issueLE a b) :=
  List.sorted_mergeSort issueLE_trans issueLE_total l

/-- Stability of the severity sort: the subsequence of issues of any fixed
severity is exactly the same, in the same order, as in the input. -/
theorem sortIssues_filter_severity (l : List ReviewIssue) (s : Severity) :
    (sortIssues l).filter (fun x => x.severity = s) =
      l.filter (fun x => x.severity = s) := by
  set p : ReviewIssue → Bool := fun x => decide (x.severity = s) with hp
  have hcp : (l.filter p).Pairwise (fun a b => issueLE a b) := by
    refine List.pairwise_of_forall_mem_list (fun a ha b hb => ?_)
    have ha' := List.of_mem_filter ha
    have hb' := List.of_mem_filter hb
    simp only [hp, decide_eq_true_eq] at ha' hb'
    simp [issueLE, ha', hb']
  have hsub : List.Sublist (l.filter p) (sortIssues l) :=
    List.sublist_mergeSort issueLE_trans issueLE_total hcp (List.filter_sublist l)
  have hsub2 : List.Sublist (l.filter p) ((sortIssues l).filter p) := by
    have h2 := hsub.filter p
    rw [List.filter_filter] at h2
    simpa only [Bool.and_self] using h2
  have hperm : List.Perm ((sortIssues l).filter p) (l.filter p) :=
    (List.mergeSort_perm l issueLE).filter p
  exact ((hsub2.eq_of_length hperm.length_eq.symm).symm)

/-- C3: the aggregated issue sequence is sorted ascending in the fixed
severity rank `critical(0) < high(1) < medium(2) < low(3) < info(4)`, and
the sort is stable — within each severity, the deduplicated input order is
preserved (stated as: the subsequence of each severity is exactly the one
of the deduplicated input). -/
theorem mergeAnalysisResults_sorted_and_stable (ai : AIReviewResult)
    (ast sec stat : List AnalysisResult) (i : Nat)
    (h : i + 1 < (mergeAnalysisResults ai ast sec stat).issues.length) :
    severityOrder ((mergeAnalysisResults ai ast sec stat).issues.get
        ⟨i, Nat.lt_of_succ_lt h⟩).severity ≤
      severityOrder ((mergeAnalysisResults ai ast sec stat).issues.get ⟨i + 1, h⟩).severity ∧
    ∀ s : Severity,
      (mergeAnalysisResults ai ast sec stat).issues.filter (fun x => x.severity = s) =
        (deduplicateIssues (ai.issues ++ ast.flatMap (·.issues) ++
          sec.flatMap (·.issues) ++ stat.flatMap (·.issues))).filter
            (fun x => x.severity = s) := by
  have hiss : (mergeAnalysisResults ai ast sec stat).issues =
      sortIssues (deduplicateIssues (ai.issues ++ ast.flatMap (·.issues) ++
        sec.flatMap (·.issues) ++ stat.flatMap (·.issues))) := rfl
  constructor
  · have hpw := sortIssues_pairwise (deduplicateIssues (ai.issues ++
      ast.flatMap (·.issues) ++ sec.flatMap (·.issues) ++ stat.flatMap (·.issues)))
    have h2 := (List.pairwise_iff_get.mp hpw)
      ⟨i, by rw [hiss] at h; omega⟩ ⟨i + 1, by rw [hiss] at h; exact h⟩
      (by simp only [Fin.lt_def]; omega)
    simp only [issueLE, decide_eq_true_eq] at h2
    exact h2
  · intro s
    rw [hiss, sortIssues_filter_severity]

theorem sampleMerge_issues_length :
    (mergeAnalysisResults sampleAI [] [] []).issues.length = 2 := by
  show (sortIssues (deduplicateIssues _)).length = 2
  rw [sortIssues, List.length_mergeSort]
  decide

/-- C3 witness: concrete aggregation of a low + critical issue pair. -/
theorem mergeAnalysisResults_sorted_and_stable_witness :
    0 + 1 < (mergeAnalysisResults sampleAI [] [] []).issues.length ∧
    (severityOrder ((mergeAnalysisResults sampleAI [] [] []).issues.get
        ⟨0, by rw [sampleMerge_issues_length]; omega⟩).severity ≤
      severityOrder ((mergeAnalysisResults sampleAI [] [] []).issues.get
        ⟨0 + 1, by rw [sampleMerge_issues_length]; omega⟩).severity ∧
    ∀ s : Severity,
      (mergeAnalysisResults sampleAI [] [] []).issues.filter (fun x => x.severity = s) =
        (deduplicateIssues (sampleAI.issues ++ ([] : List AnalysisResult).flatMap (·.issues) ++
          ([] : List AnalysisResult).flatMap (·.issues) ++
          ([] : List AnalysisResult).flatMap (·.issues))).filter
            (fun x => x.severity = s)) :=
  ⟨by rw [sampleMerge_issues_length]; omega,
    mergeAnalysisResults_sorted_and_stable sampleAI [] [] [] 0
      (by rw [sampleMerge_issues_length]; omega)⟩

/-- C4 counterexample: `updateCheckRun` concludes `failure` on any
non-empty `securityIssues` list regardless of severity — here a single
`low`-severity security finding with no critical issue yields `failure`,
refuting that a security finding below `high` (with no criticals) never
yields `failure`. -/
theorem decideConclusion_low_security_counterexample :
    (∀ i ∈ lowSecResult.issues, i.severity ≠ Severity.critical) ∧
    (∀ s ∈ lowSecResult.securityIssues,
      s.severity ≠ Severity.high ∧ s.severity ≠ Severity.critical) ∧
    decideConclusion [lowSecResult] = Conclusion.failure := by
  decide

/-- C4 (amended): the conclusion is `failure` exactly when some result has
a critical issue or a non-empty `securityIssues` list (any severity);
otherwise `neutral` exactly when the total issue count exceeds 10;
otherwise `success`. -/
theorem decideConclusion_spec (rs : List CodeAnalysisResult) :
    (decideConclusion rs = Conclusion.failure ↔
      (∃ r ∈ rs, ∃ i ∈ r.issues, i.severity = Severity.critical) ∨
        (∃ r ∈ rs, r.securityIssues ≠ [])) ∧
    (decideConclusion rs = Conclusion.neutral ↔
      ¬((∃ r ∈ rs, ∃ i ∈ r.issues, i.severity = Severity.critical) ∨
        (∃ r ∈ rs, r.securityIssues ≠ [])) ∧
      10 < (rs.map (fun r => r.issues.length)).sum) ∧
    (decideConclusion rs = Conclusion.success ↔
      ¬((∃ r ∈ rs, ∃ i ∈ r.issues, i.severity = Severity.critical) ∨
        (∃ r ∈ rs, r.securityIssues ≠ [])) ∧
      (rs.map (fun r => r.issues.length)).sum ≤ 10) := by
  have hpos : ∀ g : CodeAnalysisResult → Nat,
      0 < (rs.map g).sum ↔ ∃ r ∈ rs, 0 < g r := by
    intro g
    induction rs with
    | nil => simp
    | cons a as ih => simp [List.sum_cons, add_pos_iff, ih]
  have hcrit : 0 < (rs.map (fun r =>
      (r.issues.filter (fun i => i.severity = Severity.critical)).length)).sum ↔
      ∃ r ∈ rs, ∃ i ∈ r.issues, i.severity = Severity.critical := by
    rw [hpos]
    refine exists_congr fun r => and_congr_right fun _ => ?_
    simp [List.length_pos]
  have hsec : 0 < (rs.map (fun r => r.securityIssues.length)).sum ↔
      ∃ r ∈ rs, r.securityIssues ≠ [] := by
    rw [hpos]
    exact exists_congr fun r => and_congr_right fun _ => List.length_pos
  by_cases hc : 0 < (rs.map (fun r =>
      (r.issues.filter (fun i => i.severity = Severity.critical)).length)).sum ∨
      0 < (rs.map (fun r => r.securityIssues.length)).sum
  · have he : decideConclusion rs = Conclusion.failure := by
      simp only [decideConclusion]
      rw [if_pos hc]
    have hrhs : (∃ r ∈ rs, ∃ i ∈ r.issues, i.severity = Severity.critical) ∨
        ∃ r ∈ rs, r.securityIssues ≠ [] := (or_congr hcrit hsec).mp hc
    refine ⟨⟨fun _ => hrhs, fun _ => he⟩, ⟨fun h => ?_, fun h => ?_⟩,
      ⟨fun h => ?_, fun h => ?_⟩⟩
    · rw [he] at h; cases h
    · exact absurd hrhs h.1
    · rw [he] at h; cases h
    · exact absurd hrhs h.1
  · have hnrhs : ¬((∃ r ∈ rs, ∃ i ∈ r.issues, i.severity = Severity.critical) ∨
        ∃ r ∈ rs, r.securityIssues ≠ []) := fun h => hc ((or_congr hcrit hsec).mpr h)
    by_cases ht : 10 < (rs.map (fun r => r.issues.length)).sum
    · have he : decideConclusion rs = Conclusion.neutral := by
        simp only [decideConclusion]
        rw [if_neg hc, if_pos ht]
      refine ⟨⟨fun h => ?_, fun h => absurd h hnrhs⟩,
        ⟨fun _ => ⟨hnrhs, ht⟩, fun _ => he⟩, ⟨fun h => ?_, fun h => ?_⟩⟩
      · rw [he] at h; cases h
      · rw [he] at h; cases h
      · omega
    · have he : decideConclusion rs = Conclusion.success := by
        simp only [decideConclusion]
        rw [if_neg hc, if_neg ht]
      refine ⟨⟨fun h => ?_, fun h => absurd h hnrhs⟩, ⟨fun h => ?_, fun h => ?_⟩,
        ⟨fun _ => ⟨hnrhs, by omega⟩, fun _ => he⟩⟩
      · rw [he] at h; cases h
      · rw [he] at h; cases h
      · omega

/-! ## Producer failure handling (C5, C6) -/

/-- C6 counterexample: when the AI call itself fails (API error or
timeout), `reviewCode` re-throws instead of contributing the fallback
result — the producer's contribution is the error, not the fallback. -/
theorem claudeReviewCode_call_failure_counterexample :
    claudeReviewCode (Except.error "timeout") (fun _ => none) = Except.error "timeout" ∧
    claudeReviewCode (Except.error "timeout") (fun _ => none) ≠
      Except.ok fallbackReviewResult := by
  exact ⟨rfl, by simp [claudeReviewCode]⟩

/-- C6 (amended): the fallback result — summary "Review completed with
parsing issues. Please check manually.", overallScore 50, empty positive
findings and issues, recommendations ["Manual review recommended due to
parsing error"] — is returned exactly when the reply is unparseable (no
brace-delimited JSON substring, or `JSON.parse` fails on it); an AI call
failure or timeout is instead re-thrown unchanged, and a successful call
is parsed. -/
theorem parseReviewResponse_fallback_spec (parse : String → Option ParsedReview)
    (response : String) :
    fallbackReviewResult.summary =
      "Review completed with parsing issues. Please check manually." ∧
    fallbackReviewResult.overallScore = 50 ∧
    fallbackReviewResult.positiveFindings = [] ∧
    fallbackReviewResult.issues = [] ∧
    fallbackReviewResult.recommendations =
      ["Manual review recommended due to parsing error"] ∧
    (extractJson response = none →
      parseReviewResponse parse response = fallbackReviewResult) ∧
    (∀ jsonText, extractJson response = some jsonText → parse jsonText = none →
      parseReviewResponse parse response = fallbackReviewResult) ∧
    (∀ e, claudeReviewCode (Except.error e) parse = Except.error e) ∧
    claudeReviewCode (Except.ok response) parse =
      Except.ok (parseReviewResponse parse response) := by
  refine ⟨rfl, rfl, rfl, rfl, rfl, fun h => ?_, fun jsonText hj hp => ?_,
    fun e => rfl, rfl⟩
  · simp only [parseReviewResponse, h]
  · simp only [parseReviewResponse, hj, hp]

/-- C6 witness: a reply with no JSON yields exactly the fallback. -/
theorem parseReviewResponse_fallback_spec_witness :
    extractJson "server error 503" = none ∧
    parseReviewResponse (fun _ => none) "server error 503" = fallbackReviewResult :=
  ⟨rfl, (parseReviewResponse_fallback_spec (fun _ => none)
    "server error 503").2.2.2.2.2.1 rfl⟩

/-- C5 counterexample: a failing AI call makes `reviewPullRequest` raise
(`.error`), refuting that no single producer failure aborts the pipeline. -/
theorem reviewPullRequest_ai_failure_counterexample :
    reviewPullRequest [sampleFile]
      (fun f => Except.ok { file := f.filename, issues := [] })
      (fun _ => Except.ok []) (fun _ => Except.ok []) true
      (fun _ => Except.error "timeout") (fun _ => none) =
      Except.error "timeout" := rfl

/-- C5 (amended): a failed security or static producer is recovered as an
empty result list (the pipeline behaves as if that producer returned `[]`),
and with a successful AI call the pipeline always returns a result, for
any producer outcomes; but a failed AI call propagates — on a non-empty
file list `reviewPullRequest` re-throws the AI call error. -/
theorem reviewPullRequest_producer_failure_recovery
    (files : List CodeFile)
    (astRun : CodeFile → Except String AnalysisResult)
    (securityScan staticAnalyze : List CodeFile → Except String (List AnalysisResult))
    (securityScanEnabled : Bool)
    (text : String) (parse : String → Option ParsedReview) (e : String) :
    (reviewPullRequest files astRun (fun _ => Except.error e) staticAnalyze
        securityScanEnabled (fun _ => Except.ok text) parse =
      reviewPullRequest files astRun (fun _ => Except.ok []) staticAnalyze
        securityScanEnabled (fun _ => Except.ok text) parse) ∧
    (reviewPullRequest files astRun securityScan (fun _ => Except.error e)
        securityScanEnabled (fun _ => Except.ok text) parse =
      reviewPullRequest files astRun securityScan (fun _ => Except.ok [])
        securityScanEnabled (fun _ => Except.ok text) parse) ∧
    (∃ result, reviewPullRequest files astRun securityScan staticAnalyze
        securityScanEnabled (fun _ => Except.ok text) parse = Except.ok result) ∧
    (files ≠ [] → reviewPullRequest files astRun securityScan staticAnalyze
        securityScanEnabled (fun _ => Except.error e) parse = Except.error e) := by
  refine ⟨?_, ?_, ?_, fun hne => ?_⟩
  · by_cases hf : files.isEmpty <;>
      simp [reviewPullRequest, hf, runSecurityScan]
  · by_cases hf : files.isEmpty <;>
      simp [reviewPullRequest, hf, runStaticAnalysis]
  · by_cases hf : files.isEmpty
    · exact ⟨getEmptyReviewResult, by simp [reviewPullRequest, hf]⟩
    · refine ⟨mergeAnalysisResults (parseReviewResponse parse text)
        (runASTAnalysis astRun (files.take 20))
        (if securityScanEnabled then runSecurityScan securityScan (files.take 20) else [])
        (runStaticAnalysis staticAnalyze (files.take 20)), ?_⟩
      simp [reviewPullRequest, hf, claudeReviewCode]
  · have hf : files.isEmpty = false := by
      simpa [List.isEmpty_iff] using hne
    simp [reviewPullRequest, hf, claudeReviewCode]

/-- C5 witness: concrete single-file instantiation. -/
theorem reviewPullRequest_producer_failure_recovery_witness :
    ([sampleFile] : List CodeFile) ≠ [] ∧
    ((reviewPullRequest [sampleFile]
        (fun f => Except.ok { file := f.filename, issues := [] })
        (fun _ => Except.error "boom") (fun _ => Except.ok []) true
        (fun _ => Except.ok "no json") (fun _ => none) =
      reviewPullRequest [sampleFile]
        (fun f => Except.ok { file := f.filename, issues := [] })
        (fun _ => Except.ok []) (fun _ => Except.ok []) true
        (fun _ => Except.ok "no json") (fun _ => none)) ∧
    (reviewPullRequest [sampleFile]
        (fun f => Except.ok { file := f.filename, issues := [] })
        (fun _ => Except.ok []) (fun _ => Except.error "boom") true
        (fun _ => Except.ok "no json") (fun _ => none) =
      reviewPullRequest [sampleFile]
        (fun f => Except.ok { file := f.filename, issues := [] })
        (fun _ => Except.ok []) (fun _ => Except.ok []) true
        (fun _ => Except.ok "no json") (fun _ => none)) ∧
    (∃ result, reviewPullRequest [sampleFile]
        (fun f => Except.ok { file := f.filename, issues := [] })
        (fun _ => Except.ok []) (fun _ => Except.ok []) true
        (fun _ => Except.ok "no json") (fun _ => none) = Except.ok result) ∧
    (([sampleFile] : List CodeFile) ≠ [] → reviewPullRequest [sampleFile]
        (fun f => Except.ok { file := f.filename, issues := [] })
        (fun _ => Except.ok []) (fun _ => Except.ok []) true
        (fun _ => Except.error "boom") (fun _ => none) = Except.error "boom")) :=
  ⟨by simp, reviewPullRequest_producer_failure_recovery [sampleFile]
    (fun f => Except.ok { file := f.filename, issues := [] })
    (fun _ => Except.ok []) (fun _ => Except.ok []) true
    "no json" (fun _ => none) "boom"⟩

/-! ## Auto-merge gating (C7) -/

/-- C7 counterexample: a PR with the opt-in label and an approval but no
review comment at all (no score can be established) is still merged —
`scoreAcceptable` defaults to `true` — refuting that merge is denied when
the score condition cannot be established. -/
theorem shouldAutoMerge_missing_score_counterexample :
    findSenseiComment noScorePull.commentBodies = none ∧
    shouldAutoMerge true "success" 80 noScorePull = true := ⟨rfl, rfl⟩

theorem scoreAcceptable_iff (minScore : Nat) (bodies : List String) :
    scoreAcceptable minScore bodies = true ↔
      ∀ body, findSenseiComment bodies = some body →
        ∀ score, matchOverallScore body = some score → minScore ≤ score := by
  rw [scoreAcceptable]
  cases h : findSenseiComment bodies with
  | none => simp
  | some body =>
    cases hm : matchOverallScore body with
    | none => simp [hm]
    | some score =>
      simp only [hm, Option.some.injEq, decide_eq_true_eq]
      constructor
      · rintro hle b rfl s hs
        rw [hm] at hs
        cases hs
        exact hle
      · intro hall
        exact hall body rfl score hm

/-- C7 (amended): the handler merges exactly when auto-merge is enabled,
the check suite concluded success, the PR carries the `auto-merge` label,
some review is `APPROVED`, and — only when a `Code Sensei AI Review`
comment exists and its `Overall Score` is parseable — that score is at
least the configured minimum.  When no comment is found or no score
parses, the score condition is vacuously satisfied and the merge
proceeds. -/
theorem shouldAutoMerge_spec (autoMergeEnabled : Bool) (checkSuiteConclusion : String)
    (minScore : Nat) (pull : PullInfo) :
    shouldAutoMerge autoMergeEnabled checkSuiteConclusion minScore pull = true ↔
      autoMergeEnabled = true ∧ checkSuiteConclusion = "success" ∧
        (∃ l ∈ pull.labels, l = "auto-merge") ∧
        (∃ s ∈ pull.reviewStates, s = "APPROVED") ∧
        ∀ body, findSenseiComment pull.commentBodies = some body →
          ∀ score, matchOverallScore body = some score → minScore ≤ score := by
  rw [shouldAutoMerge]
  simp only [Bool.and_eq_true, beq_iff_eq, hasAutoMergeLabel, hasApproval,
    List.any_eq_true, decide_eq_true_eq, scoreAcceptable_iff, and_assoc]

/-! ## Line-local auto-fixes (C8) -/

theorem splitLines_ne_nil (cs : List Char) : splitLines cs ≠ [] := by
  induction cs with
  | nil => simp [splitLines]
  | cons c cs ih =>
    rw [splitLines]
    by_cases h : c = '\n'
    · simp [h]
    · simp only [if_neg h]
      cases hs : splitLines cs with
      | nil => simp
      | cons l ls => simp

theorem joinLines_splitLines (cs : List Char) : joinLines (splitLines cs) = cs := by
  induction cs with
  | nil => rfl
  | cons c cs ih =>
    rw [splitLines]
    by_cases h : c = '\n'
    · rw [if_pos h]
      cases hs : splitLines cs with
      | nil => exact absurd hs (splitLines_ne_nil cs)
      | cons l ls =>
        subst h
        show joinLines ([] :: l :: ls) = '\n' :: cs
        rw [show joinLines ([] :: l :: ls) = [] ++ '\n' :: joinLines (l :: ls) from rfl]
        rw [List.nil_append, ← hs, ih]
    · rw [if_neg h]
      cases hs : splitLines cs with
      | nil => exact absurd hs (splitLines_ne_nil cs)
      | cons l ls =>
        rw [hs] at ih
        cases ls with
        | nil =>
          show joinLines [c :: l] = c :: cs
          rw [show joinLines [c :: l] = c :: l from rfl]
          rw [show joinLines [l] = l from rfl] at ih
          rw [ih]
        | cons m ms =>
          show joinLines ((c :: l) :: m :: ms) = c :: cs
          rw [show joinLines ((c :: l) :: m :: ms) =
            (c :: l) ++ '\n' :: joinLines (m :: ms) from rfl]
          rw [show joinLines (l :: m :: ms) =
            l ++ '\n' :: joinLines (m :: ms) from rfl] at ih
          rw [List.cons_append, ih]

theorem mem_splitLines_no_newline (cs : List Char) :
    ∀ l ∈ splitLines cs, '\n' ∉ l := by
  induction cs with
  | nil =>
    intro l hl
    rw [splitLines] at hl
    rcases List.mem_singleton.mp hl with rfl
    simp
  | cons c cs ih =>
    intro l hl
    rw [splitLines] at hl
    by_cases h : c = '\n'
    · rw [if_pos h] at hl
      rcases List.mem_cons.mp hl with rfl | hl'
      · simp
      · exact ih l hl'
    · rw [if_neg h] at hl
      cases hs : splitLines cs with
      | nil => exact absurd hs (splitLines_ne_nil cs)
      | cons m ms =>
        rw [hs] at hl
        rcases List.mem_cons.mp hl with rfl | hl'
        · intro hmem
          rcases List.mem_cons.mp hmem with h1 | h2
          · exact h h1.symm
          · exact ih m (by rw [hs]; exact List.mem_cons_self _ _) h2
        · exact ih l (by rw [hs]; exact List.mem_cons.mpr (Or.inr hl'))

theorem splitLines_single {l : List Char} (h : '\n' ∉ l) : splitLines l = [l] := by
  induction l with
  | nil => rfl
  | cons c cs ih =>
    have hc : ¬ c = '\n' := fun hh => h (hh ▸ List.mem_cons_self c cs)
    rw [splitLines, if_neg hc, ih (fun hm => h (List.mem_cons.mpr (Or.inr hm)))]

theorem splitLines_append {l : List Char} (h : '\n' ∉ l) (cs : List Char) :
    splitLines (l ++ '\n' :: cs) = l :: splitLines cs := by
  induction l with
  | nil =>
    rw [List.nil_append, splitLines, if_pos rfl]
  | cons c l' ih =>
    have hc : ¬ c = '\n' := fun hh => h (hh ▸ List.mem_cons_self c l')
    rw [List.cons_append, splitLines, if_neg hc,
      ih (fun hm => h (List.mem_cons.mpr (Or.inr hm)))]

theorem splitLines_joinLines (ls : List (List Char)) (hne : ls ≠ [])
    (h : ∀ l ∈ ls, '\n' ∉ l) : splitLines (joinLines ls) = ls := by
  induction ls with
  | nil => exact absurd rfl hne
  | cons l ls ih =>
    cases ls with
    | nil =>
      rw [show joinLines [l] = l from rfl]
      exact splitLines_single (h l (List.mem_cons_self _ _))
    | cons m ms =>
      rw [show joinLines (l :: m :: ms) = l ++ '\n' :: joinLines (m :: ms) from rfl]
      rw [splitLines_append (h l (List.mem_cons_self _ _))]
      rw [ih (by simp) (fun x hx => h x (List.mem_cons_of_mem _ hx))]

theorem replaceVarGo_cons_of_ne (prev : Option Char) (c : Char) (cs : List Char)
    (hne : ∀ rest : List Char, c = 'v' → cs = 'a' :: 'r' :: rest → False) :
    replaceVarGo prev (c :: cs) = c :: replaceVarGo (some c) cs := by
  rw [replaceVarGo.eq_def]
  split
  · rename_i heq
    exact absurd heq (by simp)
  · simp_all
  · rename_i c' cs' hno heq
    injection heq with h1 h2
    subst h1
    subst h2
    rfl

theorem replaceVarGo_no_newline (p : Option Char) (l : List Char) (h : '\n' ∉ l) :
    '\n' ∉ replaceVarGo p l := by
  induction p, l using replaceVarGo.induct with
  | case1 p => intro hc; exact absurd hc (by simp [replaceVarGo])
  | case2 prev rest hb =>
    rw [show replaceVarGo prev ('v' :: 'a' :: 'r' :: rest) =
      if atWordBoundaryLeft prev = true ∧ atWordBoundaryRight rest = true then
        'c' :: 'o' :: 'n' :: 's' :: 't' :: rest
      else 'v' :: replaceVarGo (some 'v') ('a' :: 'r' :: rest) from rfl]
    rw [if_pos hb]
    simp only [List.mem_cons, not_or] at h ⊢
    refine ⟨by decide, by decide, by decide, by decide, by decide, h.2.2.2⟩
  | case3 prev rest hb ih =>
    rw [show replaceVarGo prev ('v' :: 'a' :: 'r' :: rest) =
      if atWordBoundaryLeft prev = true ∧ atWordBoundaryRight rest = true then
        'c' :: 'o' :: 'n' :: 's' :: 't' :: rest
      else 'v' :: replaceVarGo (some 'v') ('a' :: 'r' :: rest) from rfl]
    rw [if_neg hb]
    simp only [List.mem_cons, not_or] at h ⊢
    refine ⟨h.1, ?_⟩
    have hr := ih (by
      simp only [List.mem_cons, not_or]
      exact ⟨h.2.1, h.2.2⟩)
    simpa only [List.mem_cons, not_or] using hr
  | case4 prev c cs hne ih =>
    rw [replaceVarGo_cons_of_ne prev c cs hne]
    simp only [List.mem_cons, not_or] at h ⊢
    exact ⟨h.1, ih h.2⟩

theorem mem_trimEnd {c : Char} {l : List Char} (hc : c ∈ trimEnd l) : c ∈ l := by
  rw [trimEnd, List.mem_reverse] at hc
  exact List.mem_reverse.mp ((List.dropWhile_sublist _).subset hc)

theorem fixLine_no_newline (code : Option String) {l : List Char} (h : '\n' ∉ l) :
    '\n' ∉ fixLine code l := by
  rw [fixLine]
  split_ifs with h1 h2 h3 h4 h5 h6
  · exact replaceVarGo_no_newline none l h
  · simp
  · simp
  · intro hc
    rcases List.mem_append.mp hc with hc1 | hc2
    · exact h (mem_trimEnd hc1)
    · simp only [List.mem_singleton] at hc2
      exact absurd hc2 (by decide)
  · intro hc
    exact h (mem_trimEnd hc)
  · intro hc
    rcases List.mem_map.mp hc with ⟨a, ha, hfa⟩
    by_cases haq : a = '"'
    · rw [if_pos haq] at hfa
      exact absurd hfa (by decide)
    · rw [if_neg haq] at hfa
      exact h (hfa ▸ ha)
  · exact h

theorem set_getD_self {α : Type} (l : List α) (n : Nat) (d : α) (hn : n < l.length) :
    l.set n (l.getD n d) = l := by
  induction l generalizing n with
  | nil => simp at hn
  | cons a as ih =>
    cases n with
    | zero => simp
    | succ m =>
      simp only [List.set_cons_succ, List.getD_cons_succ]
      rw [ih m (by simpa using hn)]

theorem fixLine_not_whitelisted {code : Option String}
    (h : ∀ c ∈ autoFixWhitelist, code ≠ some c) (l : List Char) :
    fixLine code l = l := by
  have h1 : ¬ code = some "no-var" := h _ (by decide)
  have h2 : ¬ code = some "no-console" := h _ (by decide)
  have h3 : ¬ code = some "no-debugger" := h _ (by decide)
  have h4 : ¬ code = some "missing-semicolon" := h _ (by decide)
  have h5 : ¬ code = some "trailing-whitespace" := h _ (by decide)
  have h6 : ¬ code = some "double-quotes" := h _ (by decide)
  rw [fixLine, if_neg h1, if_neg h2, if_neg h3, if_neg h4, if_neg h5, if_neg h6]

/-- C8: `applyFix` is line-local and whitelist-only — the line count is
preserved and every line other than the 1-based `issue.line` is unchanged;
when the line is absent, zero, or past the end of the file, or when the
rule code is not one of the six whitelisted codes, the content is returned
entirely unchanged. -/
theorem applyFix_line_local (content : List Char) (issue : ReviewIssue) :
    (splitLines (applyFix content issue)).length = (splitLines content).length ∧
    (∀ j : Nat, issue.line ≠ some (j + 1) →
      (splitLines (applyFix content issue))[j]? = (splitLines content)[j]?) ∧
    ((issue.line = none ∨ issue.line = some 0 ∨
        (∃ n, issue.line = some n ∧ (splitLines content).length < n)) →
      applyFix content issue = content) ∧
    ((∀ c ∈ autoFixWhitelist, issue.code ≠ some c) →
      applyFix content issue = content) := by
  cases hl : issue.line with
  | none =>
    have he : applyFix content issue = content := by
      simp only [applyFix, hl]
    exact ⟨by rw [he], fun j _ => by rw [he], fun _ => he, fun _ => he⟩
  | some n =>
    by_cases hg : n = 0 ∨ (splitLines content).length < n
    · have he : applyFix content issue = content := by
        simp only [applyFix, hl]
        rw [if_pos hg]
      exact ⟨by rw [he], fun j _ => by rw [he], fun _ => he, fun _ => he⟩
    · push_neg at hg
      obtain ⟨hn0, hlen⟩ := hg
      have hidx : n - 1 < (splitLines content).length := by omega
      have he : applyFix content issue = joinLines ((splitLines content).set (n - 1)
          (fixLine issue.code ((splitLines content).getD (n - 1) []))) := by
        simp only [applyFix, hl]
        rw [if_neg (by push_neg; exact ⟨hn0, by omega⟩)]
      have hbase : '\n' ∉ (splitLines content).getD (n - 1) [] := by
        rw [List.getD_eq_getElem?_getD, List.getElem?_eq_getElem hidx]
        simp only [Option.getD_some]
        exact mem_splitLines_no_newline content _ (List.getElem_mem hidx)
      have hnew_nl : '\n' ∉ fixLine issue.code ((splitLines content).getD (n - 1) []) :=
        fixLine_no_newline issue.code hbase
      have hall : ∀ l ∈ (splitLines content).set (n - 1)
          (fixLine issue.code ((splitLines content).getD (n - 1) [])), '\n' ∉ l := by
        intro l hl'
        rcases List.mem_or_eq_of_mem_set hl' with hmem | rfl
        · exact mem_splitLines_no_newline content l hmem
        · exact hnew_nl
      have hne2 : (splitLines content).set (n - 1)
          (fixLine issue.code ((splitLines content).getD (n - 1) [])) ≠ [] := by
        apply List.ne_nil_of_length_pos
        rw [List.length_set]
        omega
      have hsplit : splitLines (applyFix content issue) =
          (splitLines content).set (n - 1)
            (fixLine issue.code ((splitLines content).getD (n - 1) [])) := by
        rw [he, splitLines_joinLines _ hne2 hall]
      refine ⟨?_, ?_, ?_, ?_⟩
      · rw [hsplit, List.length_set]
      · intro j hj
        rw [hsplit]
        have hnj : n ≠ j + 1 := fun hh => hj (by rw [hh])
        exact List.getElem?_set_ne (by omega)
      · intro hcase
        rcases hcase with h1 | h1 | ⟨m, hm, hlt⟩
        · exact Option.noConfusion h1
        · injection h1 with h1'
          exact absurd h1' hn0
        · injection hm with hm'
          omega
      · intro hwl
        rw [he, fixLine_not_whitelisted hwl, set_getD_self _ _ _ hidx,
          joinLines_splitLines]

/-- C8 witness: a concrete `no-var` fix on line 1 of a two-line file
leaves line 2 (index 1) unchanged. -/
theorem applyFix_line_local_witness :
    ({ severity := Severity.low, category := Category.style, message := "var usage",
       file := "a.ts", line := some 1, code := some "no-var" } : ReviewIssue).line ≠
        some (1 + 1) ∧
    (splitLines (applyFix ("var x = 1\nvar y = 2".data)
        { severity := Severity.low, category := Category.style, message := "var usage",
          file := "a.ts", line := some 1, code := some "no-var" }))[1]? =
      (splitLines ("var x = 1\nvar y = 2".data))[1]? :=
  ⟨by decide, (applyFix_line_local ("var x = 1\nvar y = 2".data)
    { severity := Severity.low, category := Category.style, message := "var usage",
      file := "a.ts", line := some 1, code := some "no-var" }).2.1 1 (by decide)⟩

/-! ## Maintainability index at the empty file (C9) -/

theorem jsLog_fin_zero : jsLog (.fin 0) = .neginf := by
  rw [jsLog]
  rw [if_neg (lt_irrefl 0), if_pos rfl]

theorem jsMul_neginf_fin_pos {y : ℝ} (h : 0 < y) : jsMul .neginf (.fin y) = .neginf := by
  show (if 0 < y then JSNum.neginf else if y = 0 then JSNum.nan else JSNum.posinf) =
    JSNum.neginf
  rw [if_pos h]

theorem jsAdd_neginf_fin (y : ℝ) : jsAdd .neginf (.fin y) = .neginf := rfl

theorem jsLog_neginf : jsLog .neginf = .nan := rfl

theorem jsMul_fin_nan (x : ℝ) : jsMul (.fin x) .nan = .nan := rfl

theorem jsSub_fin_nan (x : ℝ) : jsSub (.fin x) .nan = .nan := rfl

theorem jsSub_nan (b : JSNum) : jsSub .nan b = .nan := by
  cases b <;> rfl

theorem jsMax_fin_nan (x : ℝ) : jsMax (.fin x) .nan = .nan := rfl

theorem jsMin_fin_nan (x : ℝ) : jsMin (.fin x) .nan = .nan := rfl

/-- C9 failing input: on the empty file the analyzer returns
`linesOfCode = 0` and `cyclomaticComplexity = 1` as claimed, but the
maintainability index is `NaN`, not a real clamped to `[0,100]`:
`Math.log(0) = -Infinity`, so the Halstead proxy is `-Infinity` (there is
no 0-floor in the code), `Math.log(-Infinity + 1) = NaN`, and the `NaN`
survives `Math.max(0, ·)` and `Math.min(100, ·)`. -/
theorem countWordGo_nil (c0 : Char) (wrest : List Char) (p : Option Char) :
    countWordGo c0 wrest p [] = 0 := by
  rw [countWordGo]

theorem countWord_nil (w : String) : countWord w [] = 0 := by
  rw [countWord.eq_def]
  cases w.data with
  | nil => rfl
  | cons c0 wrest => exact countWordGo_nil c0 wrest none

theorem countElseIf_nil : countElseIf [] = 0 := by
  rw [countElseIf, countElseIfGo]

theorem countSubstrGo_nil (p0 : Char) (prest : List Char) :
    countSubstrGo p0 prest [] = 0 := by
  rw [countSubstrGo]

theorem countSubstr_nil (p : String) : countSubstr p [] = 0 := by
  rw [countSubstr.eq_def]
  cases p.data with
  | nil => rfl
  | cons c0 prest => exact countSubstrGo_nil c0 prest

theorem calculateCyclomaticComplexity_nil : calculateCyclomaticComplexity [] = 1 := by
  simp [calculateCyclomaticComplexity, countWord_nil, countElseIf_nil, countSubstr_nil]

theorem calculateCognitiveComplexity_nil : calculateCognitiveComplexity [] = 0 := by
  have hstep : cognitiveStep (0, 0) [] = (0, 0) := by
    simp [cognitiveStep, hasControlKeyword, countWord_nil, countSubstr_nil,
      containsSubstr]
  show ((splitLines []).foldl cognitiveStep (0, 0)).1 = 0
  rw [show splitLines [] = [[]] from rfl, List.foldl_cons, List.foldl_nil, hstep]

theorem analyze_empty_file_nan :
    (analyze []).linesOfCode = 0 ∧
    (analyze []).cyclomaticComplexity = 1 ∧
    (analyze []).cognitiveComplexity = 0 ∧
    (analyze []).maintainabilityIndex = JSNum.nan := by
  refine ⟨rfl, calculateCyclomaticComplexity_nil, calculateCognitiveComplexity_nil, ?_⟩
  show calculateMaintainabilityIndex (linesOfCode []) (calculateCyclomaticComplexity [])
    (calculateCognitiveComplexity []) = JSNum.nan
  have h0 : linesOfCode [] = 0 := rfl
  rw [h0, calculateCyclomaticComplexity_nil, calculateCognitiveComplexity_nil]
  simp only [calculateMaintainabilityIndex, Nat.cast_zero, Nat.cast_one]
  rw [jsLog_fin_zero, jsMul_neginf_fin_pos (by norm_num : (0:ℝ) < 5),
    jsAdd_neginf_fin, jsLog_neginf, jsMul_fin_nan, jsSub_fin_nan, jsSub_nan, jsSub_nan,
    jsMax_fin_nan, jsMax_fin_nan, jsMin_fin_nan]

/-! ## The 20-file cap (C10) -/

theorem mem_issues_of_mergeAnalysisResults {ai : AIReviewResult}
    {a s st : List AnalysisResult} {i : ReviewIssue}
    (h : i ∈ (mergeAnalysisResults ai a s st).issues) :
    i ∈ ai.issues ∨ (∃ r ∈ a, i ∈ r.issues) ∨ (∃ r ∈ s, i ∈ r.issues) ∨
      ∃ r ∈ st, i ∈ r.issues := by
  have h1 : i ∈ sortIssues (deduplicateIssues (ai.issues ++ a.flatMap (·.issues) ++
      s.flatMap (·.issues) ++ st.flatMap (·.issues))) := h
  have h2 := (List.mergeSort_perm _ issueLE).subset h1
  rw [deduplicateIssues_eq_dedupKeys] at h2
  have h3 := (dedupKeys_sublist _).subset h2
  simp only [List.mem_append, List.mem_flatMap] at h3
  rcases h3 with ((hai | ⟨r, hr, hir⟩) | ⟨r, hr, hir⟩) | ⟨r, hr, hir⟩
  · exact Or.inl hai
  · exact Or.inr (Or.inl ⟨r, hr, hir⟩)
  · exact Or.inr (Or.inr (Or.inl ⟨r, hr, hir⟩))
  · exact Or.inr (Or.inr (Or.inr ⟨r, hr, hir⟩))

/-- C10: the pipeline analyzes at most the first 20 eligible changed files
(after dropping removed, oversized and binary files), each analyzed file
is eligible, and — provided the per-file producers only report issues for
the files they are given, as the source's construction sites do — every
issue of a successful review either comes from the AI reply over those
files or names one of the at-most-20 analyzed files. -/
theorem reviewPullRequest_file_cap
    (prFiles : List PRFile) (fetchContent : PRFile → Option String)
    (astRun : CodeFile → Except String AnalysisResult)
    (securityScan staticAnalyze : List CodeFile → Except String (List AnalysisResult))
    (securityScanEnabled : Bool)
    (aiCall : List CodeFile → Except String String)
    (parse : String → Option ParsedReview)
    (hast : ∀ f r, astRun f = Except.ok r → ∀ i ∈ r.issues, i.file = f.filename)
    (hsec : ∀ fs rs, securityScan fs = Except.ok rs →
      ∀ r ∈ rs, ∀ i ∈ r.issues, ∃ f ∈ fs, i.file = f.filename)
    (hstat : ∀ fs rs, staticAnalyze fs = Except.ok rs →
      ∀ r ∈ rs, ∀ i ∈ r.issues, ∃ f ∈ fs, i.file = f.filename) :
    ((fetchPRFiles prFiles fetchContent).take 20).length ≤ 20 ∧
    (∀ f ∈ (fetchPRFiles prFiles fetchContent).take 20,
      ∃ pf ∈ prFiles, pf.filename = f.filename ∧ pf.status ≠ "removed" ∧
        pf.changes ≤ 1000 ∧ isBinaryFile pf.filename = false) ∧
    (∀ result, reviewPullRequest (fetchPRFiles prFiles fetchContent) astRun securityScan
        staticAnalyze securityScanEnabled aiCall parse = Except.ok result →
      ∀ i ∈ result.issues,
        (∃ text, aiCall ((fetchPRFiles prFiles fetchContent).take 20) = Except.ok text ∧
          i ∈ (parseReviewResponse parse text).issues) ∨
        ∃ f ∈ (fetchPRFiles prFiles fetchContent).take 20, i.file = f.filename) := by
  refine ⟨List.length_take_le 20 _, ?_, ?_⟩
  · intro f hf
    have hf' : f ∈ fetchPRFiles prFiles fetchContent := List.mem_of_mem_take hf
    rw [fetchPRFiles] at hf'
    rcases List.mem_filterMap.mp hf' with ⟨pf, hpf, hbody⟩
    by_cases hcond : pf.status = "removed" ∨ 1000 < pf.changes ∨
        isBinaryFile pf.filename
    · rw [if_pos hcond] at hbody
      cases hbody
    · rw [if_neg hcond] at hbody
      push_neg at hcond
      obtain ⟨hc1, hc2, hc3⟩ := hcond
      refine ⟨pf, hpf, ?_, hc1, by omega, by simpa using hc3⟩
      cases hfc : fetchContent pf with
      | none =>
        rw [hfc] at hbody
        cases hbody
      | some content =>
        rw [hfc] at hbody
        have hbody' : (if content = "" then (none : Option CodeFile)
            else some { filename := pf.filename, content := content,
                        language := detectLanguage pf.filename, patch := pf.patch,
                        additions := pf.additions, deletions := pf.deletions,
                        changes := pf.changes }) = some f := hbody
        by_cases hce : content = ""
        · rw [if_pos hce] at hbody'
          cases hbody'
        · rw [if_neg hce] at hbody'
          injection hbody' with hb
          rw [← hb]
  · intro result hres i hi
    by_cases hf : (fetchPRFiles prFiles fetchContent).isEmpty
    · rw [reviewPullRequest, if_pos hf] at hres
      injection hres with hres'
      rw [← hres'] at hi
      simp [getEmptyReviewResult] at hi
    · rw [reviewPullRequest, if_neg hf] at hres
      simp only [] at hres
      cases hcall : aiCall ((fetchPRFiles prFiles fetchContent).take 20) with
      | error e =>
        rw [hcall] at hres
        exact absurd (show (Except.error e : Except String AIReviewResult) =
          Except.ok result from hres) (by simp)
      | ok text =>
        rw [hcall] at hres
        have hres' : Except.ok (mergeAnalysisResults (parseReviewResponse parse text)
            (runASTAnalysis astRun ((fetchPRFiles prFiles fetchContent).take 20))
            (if securityScanEnabled then
              runSecurityScan securityScan ((fetchPRFiles prFiles fetchContent).take 20)
            else [])
            (runStaticAnalysis staticAnalyze
              ((fetchPRFiles prFiles fetchContent).take 20))) = Except.ok result := hres
        injection hres' with hres''
        rw [← hres''] at hi
        rcases mem_issues_of_mergeAnalysisResults hi with
          hai | ⟨r, hr, hir⟩ | ⟨r, hr, hir⟩ | ⟨r, hr, hir⟩
        · exact Or.inl ⟨text, rfl, hai⟩
        · right
          rw [runASTAnalysis] at hr
          rcases List.mem_filterMap.mp hr with ⟨f, hfmem, hfa⟩
          have hok : astRun f = Except.ok r := by
            cases ha : astRun f with
            | error e =>
              rw [ha] at hfa
              cases hfa
            | ok rr =>
              rw [ha] at hfa
              injection hfa with h'
              rw [h']
          exact ⟨f, hfmem, hast f r hok i hir⟩
        · right
          by_cases hen : securityScanEnabled
          · rw [if_pos hen, runSecurityScan] at hr
            cases hscan : securityScan ((fetchPRFiles prFiles fetchContent).take 20) with
            | error e =>
              rw [hscan] at hr
              cases hr
            | ok rs =>
              rw [hscan] at hr
              exact hsec _ rs hscan r hr i hir
          · rw [if_neg hen] at hr
            cases hr
        · right
          rw [runStaticAnalysis] at hr
          cases hscan : staticAnalyze ((fetchPRFiles prFiles fetchContent).take 20) with
          | error e =>
            rw [hscan] at hr
            cases hr
          | ok rs =>
            rw [hscan] at hr
            exact hstat _ rs hscan r hr i hir

/-- C10 witness: one modified PR file, trivial producers. -/
theorem reviewPullRequest_file_cap_witness :
    (∀ f : CodeFile, ∀ r : AnalysisResult,
      (Except.ok { file := f.filename, issues := [] } :
        Except String AnalysisResult) = Except.ok r →
      ∀ i ∈ r.issues, i.file = f.filename) ∧
    (∀ fs : List CodeFile, ∀ rs : List AnalysisResult,
      (Except.ok [] : Except String (List AnalysisResult)) = Except.ok rs →
      ∀ r ∈ rs, ∀ i ∈ r.issues, ∃ f ∈ fs, i.file = f.filename) ∧
    (((fetchPRFiles [samplePRFile] (fun _ => some "var x = 1")).take 20).length ≤ 20 ∧
    (∀ f ∈ (fetchPRFiles [samplePRFile] (fun _ => some "var x = 1")).take 20,
      ∃ pf ∈ [samplePRFile], pf.filename = f.filename ∧ pf.status ≠ "removed" ∧
        pf.changes ≤ 1000 ∧ isBinaryFile pf.filename = false) ∧
    (∀ result, reviewPullRequest (fetchPRFiles [samplePRFile] (fun _ => some "var x = 1"))
        (fun f => Except.ok { file := f.filename, issues := [] })
        (fun _ => Except.ok []) (fun _ => Except.ok []) true
        (fun _ => Except.ok "no json") (fun _ => none) = Except.ok result →
      ∀ i ∈ result.issues,
        (∃ text, (fun _ : List CodeFile => (Except.ok "no json" : Except String String))
            ((fetchPRFiles [samplePRFile] (fun _ => some "var x = 1")).take 20) =
              Except.ok text ∧
          i ∈ (parseReviewResponse (fun _ => none) text).issues) ∨
        ∃ f ∈ (fetchPRFiles [samplePRFile] (fun _ => some "var x = 1")).take 20,
          i.file = f.filename)) := by
  have p1 : ∀ f : CodeFile, ∀ r : AnalysisResult,
      (Except.ok { file := f.filename, issues := [] } :
        Except String AnalysisResult) = Except.ok r →
      ∀ i ∈ r.issues, i.file = f.filename := by
    intro f r h i hi
    injection h with h'
    rw [← h'] at hi
    simp at hi
  have p2 : ∀ fs : List CodeFile, ∀ rs : List AnalysisResult,
      (Except.ok [] : Except String (List AnalysisResult)) = Except.ok rs →
      ∀ r ∈ rs, ∀ i ∈ r.issues, ∃ f ∈ fs, i.file = f.filename := by
    intro fs rs h r hr
    injection h with h'
    rw [← h'] at hr
    simp at hr
  exact ⟨p1, p2, reviewPullRequest_file_cap [samplePRFile] (fun _ => some "var x = 1")
    (fun f => Except.ok { file := f.filename, issues := [] })
    (fun _ => Except.ok []) (fun _ => Except.ok []) true
    (fun _ => Except.ok "no json") (fun _ => none)
    p1 (fun fs => p2 fs) (fun fs => p2 fs)⟩

/-- C2: the adjusted overall score equals the base score minus the sum
of per-issue penalties (critical 10, high 5, medium 2, low 1, info 0),
clamped to `[0,100]`; it is always within `[0,100]`, and with zero issues
it is the clamped base score. -/
theorem calculateAdjustedScore_clamped_penalty_sum (baseScore : Int)
    (issues : List ReviewIssue) :
    calculateAdjustedScore baseScore issues =
      max 0 (min 100 (baseScore - ((issues.map (fun i => severityPenalty i.severity)).sum))) ∧
    0 ≤ calculateAdjustedScore baseScore issues ∧
    calculateAdjustedScore baseScore issues ≤ 100 ∧
    calculateAdjustedScore baseScore [] = max 0 (min 100 baseScore) := by
  have hfold : ∀ (l : List ReviewIssue) (a : Int),
      l.foldl (fun acc i => acc + severityPenalty i.severity) a =
        a + (l.map (fun i => severityPenalty i.severity)).sum := by
    intro l
    induction l with
    | nil => intro a; simp
    | cons x xs ih =>
      intro a
      simp only [List.foldl_cons, List.map_cons, List.sum_cons, ih]
      ring
  refine ⟨?_, ?_, ?_, ?_⟩
  · simp [calculateAdjustedScore, hfold]
  · simp [calculateAdjustedScore, le_max_iff]
  · simp only [calculateAdjustedScore]
    exact max_le (by norm_num) (min_le_left _ _)
  · simp [calculateAdjustedScore]

end CodeSensei
